import Mathlib

/-!
Shallow embedding of the Box2D-MT broad phase
(`Box2D/Box2D/Collision/b2BroadPhase.h`) and proofs about its pairing
pipeline.

The header defines the pair comparator, `TestOverlap`, `GetProxyCount`,
`UpdatePairs`, `ResetMoveBuffer` and `GetMoveCount` inline; those are
translated directly.  The bodies that live outside this header (the
dynamic tree, `b2TestOverlap`, `QueryCallback`, `CreateProxy`,
`DestroyProxy`, `MoveProxy`, `TouchProxy`, `BufferMove`, `UnBufferMove`)
are modelled from the specification, as marked on each definition.

The embedding is the single-threaded instance: one per-thread scratch
record (thread 0), whose move buffer is the shared move buffer.
Coordinates are integers; overflow plays no role in any claim.
-/

namespace Box2D

/-- An axis-aligned bounding box, one interval per axis. -/
structure b2AABB where
  lowerX : Int
  lowerY : Int
  upperX : Int
  upperY : Int
deriving DecidableEq, Repr

/-- Modelled from the spec: `b2TestOverlap` (defined in `b2Collision.h`,
not part of this excerpt) — "two fattened AABBs overlap iff every axis's
projected interval overlap is non-empty". -/
def b2TestOverlap (a b : b2AABB) : Bool :=
  decide (a.lowerX ≤ b.upperX) && decide (b.lowerX ≤ a.upperX) &&
    decide (a.lowerY ≤ b.upperY) && decide (b.lowerY ≤ a.upperY)

/-- `b2Pair` (b2BroadPhase.h lines 29-33). -/
@[ext]
structure b2Pair where
  proxyIdA : Int
  proxyIdB : Int
deriving DecidableEq, Repr

/-- `b2PairLessThan` (b2BroadPhase.h lines 141-154): the comparator used
to sort the pair buffer. -/
def b2PairLessThan (pair1 pair2 : b2Pair) : Bool :=
  if pair1.proxyIdA < pair2.proxyIdA then
    true
  else if pair1.proxyIdA = pair2.proxyIdA then
    decide (pair1.proxyIdB < pair2.proxyIdB)
  else
    false

/-- One live proxy stored in the dynamic tree: its handle, its fattened
AABB and its user data (an opaque non-null reference, modelled as `Nat`). -/
structure TreeEntry where
  id : Int
  fatAABB : b2AABB
  userData : Nat
deriving DecidableEq, Repr

/-- Modelled from the spec: the SpatialIndex (`b2DynamicTree`, a separate
component) as the list of its live entries; its internal tree shape is
irrelevant to the pairing engine's contract. -/
abbrev b2DynamicTree := List TreeEntry

/-- Modelled from the spec: `b2DynamicTree::GetUserData`; "Returns NULL
if the id is invalid" — `none` models the null pointer. -/
def treeGetUserData (t : b2DynamicTree) (proxyId : Int) : Option Nat :=
  (t.find? (fun e => e.id == proxyId)).map (fun e => e.userData)

/-- Modelled from the spec: `b2DynamicTree::GetFatAABB`; `none` models an
invalid handle (undefined behaviour in the C++). -/
def treeGetFatAABB (t : b2DynamicTree) (proxyId : Int) : Option b2AABB :=
  (t.find? (fun e => e.id == proxyId)).map (fun e => e.fatAABB)

/-- Modelled from the spec: `b2DynamicTree::Query` "visits every stored
entry whose fattened AABB overlaps `aabb`, order unspecified" — the model
visits in storage order.  The broad-phase visitor never halts early, so
the visit list is total. -/
def treeQuery (t : b2DynamicTree) (aabb : b2AABB) : List Int :=
  (t.filter (fun e => b2TestOverlap e.fatAABB aabb)).map (fun e => e.id)

/-- `e_nullProxy` (b2BroadPhase.h lines 51-54). -/
def e_nullProxy : Int := -1

/-- The broad-phase state: the tree, the live-proxy counter and the
shared move buffer (thread 0's `m_moveBuffer`). -/
structure b2BroadPhase where
  m_tree : b2DynamicTree
  m_proxyCount : Int
  m_moveBuffer : List Int
deriving DecidableEq, Repr

/-- Modelled from the spec: `BufferMove` appends the handle to the shared
move buffer ("appending to the shared move buffer is O(1) amortized"). -/
def BufferMove (bp : b2BroadPhase) (proxyId : Int) : b2BroadPhase :=
  { bp with m_moveBuffer := bp.m_moveBuffer ++ [proxyId] }

/-- Modelled from the spec: `UnBufferMove` — "un-buffering (used on
destroy) need not physically remove the entry — it is acceptable to
overwrite it with the null sentinel". -/
def UnBufferMove (bp : b2BroadPhase) (proxyId : Int) : b2BroadPhase :=
  { bp with
    m_moveBuffer :=
      bp.m_moveBuffer.map (fun v => if v = proxyId then e_nullProxy else v) }

/-- The fixed fattening margin (`b2_aabbExtension`, from `b2Settings.h`,
not part of this excerpt; its value is irrelevant to every claim). -/
def b2_aabbExtension : Int := 1

/-- Modelled from the spec: the "true AABB expanded by a fixed margin". -/
def fatten (aabb : b2AABB) : b2AABB :=
  { lowerX := aabb.lowerX - b2_aabbExtension
    lowerY := aabb.lowerY - b2_aabbExtension
    upperX := aabb.upperX + b2_aabbExtension
    upperY := aabb.upperY + b2_aabbExtension }

/-- Fresh handle handed out by the tree (index recycling is the
SpatialIndex's concern; the model hands out one more than the largest
live handle). -/
def freshId (t : b2DynamicTree) : Int :=
  (t.map (fun e => e.id)).foldr max (-1) + 1

/-- Modelled from the spec: `CreateProxy` "inserts a fattened version of
`aabb` ... into the SpatialIndex, associates `userData`, increments a
live-proxy counter, and buffers the new handle as moved". -/
def CreateProxy (bp : b2BroadPhase) (aabb : b2AABB) (userData : Nat) :
    Int × b2BroadPhase :=
  let proxyId := freshId bp.m_tree
  let bp1 := { bp with
    m_tree := ⟨proxyId, fatten aabb, userData⟩ :: bp.m_tree
    m_proxyCount := bp.m_proxyCount + 1 }
  (proxyId, BufferMove bp1 proxyId)

/-- Modelled from the spec: `DestroyProxy` "removes the proxy from the
move buffer (logically — see UnBufferMove ...) and from the SpatialIndex,
decrements the live count". -/
def DestroyProxy (bp : b2BroadPhase) (proxyId : Int) : b2BroadPhase :=
  let bp1 := UnBufferMove bp proxyId
  { bp1 with
    m_proxyCount := bp1.m_proxyCount - 1
    m_tree := bp1.m_tree.filter (fun e => e.id != proxyId) }

/-- Does `outer` fully contain `inner` on both axes? -/
def containsAABB (outer inner : b2AABB) : Bool :=
  decide (outer.lowerX ≤ inner.lowerX) && decide (outer.lowerY ≤ inner.lowerY) &&
    decide (inner.upperX ≤ outer.upperX) && decide (inner.upperY ≤ outer.upperY)

/-- Modelled from the spec: the predictive extension of a fattened AABB
"along `displacement` (so that fast-moving objects keep a margin ahead of
travel)". -/
def extendByDisplacement (aabb : b2AABB) (dx dy : Int) : b2AABB :=
  { lowerX := if dx < 0 then aabb.lowerX + dx else aabb.lowerX
    lowerY := if dy < 0 then aabb.lowerY + dy else aabb.lowerY
    upperX := if dx < 0 then aabb.upperX else aabb.upperX + dx
    upperY := if dy < 0 then aabb.upperY else aabb.upperY + dy }

/-- Modelled from the spec: the SpatialIndex side of `MoveProxy` — "If
the previously fattened AABB still fully contains the new true AABB, the
SpatialIndex may skip restructuring", otherwise the stored fat AABB is
rebuilt from the new true AABB, the margin and the displacement. -/
def treeMoveProxy (t : b2DynamicTree) (proxyId : Int) (aabb : b2AABB)
    (dx dy : Int) : b2DynamicTree :=
  t.map (fun e =>
    if e.id = proxyId then
      if containsAABB e.fatAABB aabb then e
      else { e with fatAABB := extendByDisplacement (fatten aabb) dx dy }
    else e)

/-- Modelled from the spec: `MoveProxy` updates the tree and then "the
proxy is unconditionally marked moved — every `MoveProxy` call buffers
the proxy for the next pairing pass". -/
def MoveProxy (bp : b2BroadPhase) (proxyId : Int) (aabb : b2AABB)
    (dx dy : Int) : b2BroadPhase :=
  BufferMove
    { bp with m_tree := treeMoveProxy bp.m_tree proxyId aabb dx dy }
    proxyId

/-- Modelled from the spec: `TouchProxy` "marks a proxy moved without
touching its AABB". -/
def TouchProxy (bp : b2BroadPhase) (proxyId : Int) : b2BroadPhase :=
  BufferMove bp proxyId

/-- `b2BroadPhase::GetProxyCount` (b2BroadPhase.h lines 173-176). -/
def GetProxyCount (bp : b2BroadPhase) : Int :=
  bp.m_proxyCount

/-- `b2BroadPhase::TestOverlap` (b2BroadPhase.h lines 161-166): fetch
both fat AABBs from the tree and test them; an invalid handle is
undefined behaviour in the C++, modelled as `false`. -/
def TestOverlap (bp : b2BroadPhase) (proxyIdA proxyIdB : Int) : Bool :=
  match treeGetFatAABB bp.m_tree proxyIdA, treeGetFatAABB bp.m_tree proxyIdB with
  | some aabbA, some aabbB => b2TestOverlap aabbA aabbB
  | _, _ => false

/-- `b2BroadPhase::ResetMoveBuffer` (b2BroadPhase.h lines 277-283),
single-threaded instance: clear the move buffer. -/
def ResetMoveBuffer (bp : b2BroadPhase) : b2BroadPhase :=
  { bp with m_moveBuffer := [] }

/-- `b2BroadPhase::GetMoveCount` (b2BroadPhase.h lines 285-293),
single-threaded instance. -/
def GetMoveCount (bp : b2BroadPhase) : Int :=
  bp.m_moveBuffer.length

/-- Modelled from the spec: `b2BroadPhase::QueryCallback` (defined in
`b2BroadPhase.cpp`, not part of this excerpt) — "a proxy is never paired
with itself (must be filtered out by the query step)" and the pair is
canonicalized ("swap so A<B") before it is appended to the pair buffer.
This is the buffer contribution of one tree query seeded by
`queryProxyId`, given the handles the tree visits. -/
def queryCallbackPairs (queryProxyId : Int) (visited : List Int) : List b2Pair :=
  visited.filterMap (fun proxyId =>
    if proxyId = queryProxyId then none
    else some ⟨min proxyId queryProxyId, max proxyId queryProxyId⟩)

/-- The query loop of `UpdatePairs` (b2BroadPhase.h lines 203-220): for
each index of the range, read the buffered handle, skip the null sentinel,
fetch the proxy's current fat AABB and query the tree with it; an invalid
handle (undefined behaviour in the C++) contributes nothing. -/
def collectPairs (tree : b2DynamicTree) (moveBuffer : List Int)
    (moveBegin moveEnd : Nat) : List b2Pair :=
  (List.range' moveBegin (moveEnd - moveBegin)).flatMap (fun i =>
    let queryProxyId := moveBuffer.getD i e_nullProxy
    if queryProxyId = e_nullProxy then []
    else
      match treeGetFatAABB tree queryProxyId with
      | none => []
      | some fatAABB => queryCallbackPairs queryProxyId (treeQuery tree fatAABB))

/-- The comparator as a relation: `pairLe p q` iff `q` does not sort
strictly before `p`.  `std::sort` with `b2PairLessThan` yields a buffer
sorted by this relation; as pairs that compare equal are equal values,
the sorted buffer is unique, so the model may sort with any correct
algorithm. -/
def pairLe (p q : b2Pair) : Prop :=
  b2PairLessThan q p = false

instance : DecidableRel pairLe := fun p q =>
  decidable_of_iff (b2PairLessThan q p = false) Iff.rfl

/-- The strict comparator as a relation. -/
def pairLt (p q : b2Pair) : Prop :=
  b2PairLessThan p q = true

/-- One report sent to the client: the primary pair of the duplicate run
and the two user-data values passed to `AddPair`. -/
structure Report where
  pair : b2Pair
  userDataA : Option Nat
  userDataB : Option Nat
deriving DecidableEq, Repr

/-- Strict order on reports induced by the pair comparator. -/
def reportLt (r s : Report) : Prop :=
  b2PairLessThan r.pair s.pair = true

/-- The reporting loop of `UpdatePairs` (b2BroadPhase.h lines 231-254):
report the primary pair's user data, then skip the run of duplicate
pairs (those equal to the primary on both fields).  The loop consumes at
least one buffer element per iteration; `fuel` (instantiated with the
buffer length) bounds the iteration count. -/
def emitAux (tree : b2DynamicTree) : Nat → List b2Pair → List Report
  | _, [] => []
  | 0, _ :: _ => []
  | Nat.succ fuel, p :: rest =>
    { pair := p
      userDataA := treeGetUserData tree p.proxyIdA
      userDataB := treeGetUserData tree p.proxyIdB } ::
      emitAux tree fuel
        (rest.dropWhile (fun q => q.proxyIdA == p.proxyIdA && q.proxyIdB == p.proxyIdB))

/-- The reporting loop at its real fuel. -/
def emitPairs (tree : b2DynamicTree) (sortedBuffer : List b2Pair) : List Report :=
  emitAux tree sortedBuffer.length sortedBuffer

/-- `b2BroadPhase::UpdatePairs` (b2BroadPhase.h lines 193-258),
single-threaded instance: the pair buffer collected by the query loop is
sorted and reported; the move buffer is cleared exactly when the whole
range was processed.  Returns the `AddPair` call sequence and the post
state. -/
def UpdatePairs (bp : b2BroadPhase) (moveBegin moveEnd : Nat) :
    List Report × b2BroadPhase :=
  let raw := collectPairs bp.m_tree bp.m_moveBuffer moveBegin moveEnd
  let sorted := List.insertionSort pairLe raw
  let bp1 :=
    if moveBegin = 0 ∧ moveEnd = bp.m_moveBuffer.length then
      { bp with m_moveBuffer := [] }
    else bp
  (emitPairs bp.m_tree sorted, bp1)

/-- The empty broad phase (`b2BroadPhase::b2BroadPhase()`, modelled from
the spec: no proxies, zero count, empty move buffer). -/
def initialBroadPhase : b2BroadPhase :=
  { m_tree := [], m_proxyCount := 0, m_moveBuffer := [] }

/-- A proxy-lifecycle operation, for the create/destroy counting claim. -/
inductive ProxyOp where
  | create (aabb : b2AABB) (userData : Nat)
  | destroy (proxyId : Int)
deriving DecidableEq, Repr

/-- Apply one lifecycle operation. -/
def applyOp (bp : b2BroadPhase) : ProxyOp → b2BroadPhase
  | .create aabb userData => (CreateProxy bp aabb userData).2
  | .destroy proxyId => DestroyProxy bp proxyId

/-- Apply a sequence of lifecycle operations, left to right. -/
def applyOps (bp : b2BroadPhase) : List ProxyOp → b2BroadPhase
  | [] => bp
  | op :: ops => applyOps (applyOp bp op) ops

/-- Is a handle currently live (stored in the tree)? -/
def isLive (bp : b2BroadPhase) (proxyId : Int) : Bool :=
  bp.m_tree.any (fun e => e.id == proxyId)

/-- A valid lifecycle sequence: each destroy names a currently live
proxy. -/
def validOps (bp : b2BroadPhase) : List ProxyOp → Bool
  | [] => true
  | op :: ops =>
    (match op with
     | .create _ _ => true
     | .destroy proxyId => isLive bp proxyId) && validOps (applyOp bp op) ops

/-- The number of creates in a sequence, as an integer. -/
def countCreates (ops : List ProxyOp) : Int :=
  (ops.countP (fun op => match op with | .create _ _ => true | _ => false) : Nat)

/-- The number of destroys in a sequence, as an integer. -/
def countDestroys (ops : List ProxyOp) : Int :=
  (ops.countP (fun op => match op with | .destroy _ => true | _ => false) : Nat)

/-! ### Concrete scenario used by the witnesses -/

/-- True AABB of the first example proxy. -/
def aabbA : b2AABB := ⟨0, 0, 2, 2⟩

/-- True AABB of the second example proxy; overlaps `aabbA`. -/
def aabbB : b2AABB := ⟨1, 1, 3, 3⟩

/-- A far-away AABB; overlaps neither `aabbA` nor `aabbB`. -/
def aabbC : b2AABB := ⟨10, 10, 11, 11⟩

/-- Example proxy 0. -/
def entryA : TreeEntry := ⟨0, aabbA, 10⟩

/-- Example proxy 1. -/
def entryB : TreeEntry := ⟨1, aabbB, 11⟩

/-- Example proxy 2. -/
def entryC : TreeEntry := ⟨2, aabbC, 12⟩

/-- Two overlapping proxies, both buffered as moved. -/
def exBP : b2BroadPhase := ⟨[entryA, entryB], 2, [0, 1]⟩

/-- Three proxies, all buffered as moved. -/
def exBP3 : b2BroadPhase := ⟨[entryA, entryB, entryC], 3, [0, 1, 2]⟩

/-- The single report the example scenario produces. -/
def reportAB : Report := ⟨⟨0, 1⟩, some 10, some 11⟩

/-- A valid lifecycle sequence: two creates, then a destroy of a live
proxy. -/
def exOps : List ProxyOp := [.create aabbA 5, .create aabbB 6, .destroy 0]

/-! ### The comparator layer -/

theorem b2PairLessThan_iff (p q : b2Pair) :
    b2PairLessThan p q = true ↔
      (p.proxyIdA < q.proxyIdA ∨ (p.proxyIdA = q.proxyIdA ∧ p.proxyIdB < q.proxyIdB)) := by
  unfold b2PairLessThan
  split_ifs with h1 h2 <;> simp <;> omega

theorem b2PairLessThan_eq_false_iff (p q : b2Pair) :
    b2PairLessThan p q = false ↔
      (q.proxyIdA < p.proxyIdA ∨ (q.proxyIdA = p.proxyIdA ∧ q.proxyIdB ≤ p.proxyIdB)) := by
  rw [← Bool.not_eq_true, b2PairLessThan_iff]
  omega

theorem pairLe_iff (p q : b2Pair) :
    pairLe p q ↔
      (p.proxyIdA < q.proxyIdA ∨ (p.proxyIdA = q.proxyIdA ∧ p.proxyIdB ≤ q.proxyIdB)) := by
  rw [pairLe, b2PairLessThan_eq_false_iff]

instance : IsTotal b2Pair pairLe :=
  ⟨fun p q => by rw [pairLe_iff, pairLe_iff]; omega⟩

instance : IsTrans b2Pair pairLe :=
  ⟨fun p q r hpq hqr => by
    rw [pairLe_iff] at hpq hqr ⊢
    omega⟩

instance : IsTrans b2Pair pairLt :=
  ⟨fun p q r hpq hqr => by
    rw [pairLt, b2PairLessThan_iff] at hpq hqr ⊢
    omega⟩

instance : IsTrans Report reportLt :=
  ⟨fun r s t hrs hst => by
    rw [reportLt, b2PairLessThan_iff] at hrs hst ⊢
    omega⟩

theorem pairLe_of_ne_of_le {p q : b2Pair} (hle : pairLe p q)
    (hne : ¬(q.proxyIdA = p.proxyIdA ∧ q.proxyIdB = p.proxyIdB)) : pairLt p q := by
  rw [pairLe_iff] at hle
  rw [pairLt, b2PairLessThan_iff]
  omega

theorem pairLt_irrefl (p : b2Pair) : ¬ pairLt p p := by
  rw [pairLt, b2PairLessThan_iff]
  omega

/-! ### Tree and query-loop lemmas -/

theorem b2TestOverlap_eq_true_iff (a b : b2AABB) :
    b2TestOverlap a b = true ↔
      (a.lowerX ≤ b.upperX ∧ b.lowerX ≤ a.upperX ∧
        a.lowerY ≤ b.upperY ∧ b.lowerY ≤ a.upperY) := by
  simp [b2TestOverlap, and_assoc]

theorem b2TestOverlap_comm (a b : b2AABB) :
    b2TestOverlap a b = b2TestOverlap b a := by
  rcases hab : b2TestOverlap a b <;> rcases hba : b2TestOverlap b a <;> try rfl
  · rw [b2TestOverlap_eq_true_iff] at hba
    rw [← Bool.not_eq_true, b2TestOverlap_eq_true_iff] at hab
    omega
  · rw [b2TestOverlap_eq_true_iff] at hab
    rw [← Bool.not_eq_true, b2TestOverlap_eq_true_iff] at hba
    omega

/-- With distinct handles (the invariant the tree maintains), `find?` at a
stored entry's handle returns that entry. -/
theorem find_entry_of_nodup {t : b2DynamicTree} {en : TreeEntry}
    (hnd : (t.map TreeEntry.id).Nodup) (he : en ∈ t) :
    t.find? (fun e => e.id == en.id) = some en := by
  induction t with
  | nil => cases he
  | cons hd tl ih =>
    rw [List.map_cons, List.nodup_cons] at hnd
    rcases List.mem_cons.1 he with rfl | htl
    · simp [List.find?_cons]
    · have hne : (hd.id == en.id) = false := by
        simp only [beq_eq_false_iff_ne, ne_eq]
        intro h
        exact hnd.1 (h ▸ List.mem_map_of_mem TreeEntry.id htl)
      rw [List.find?_cons, hne]
      exact ih hnd.2 htl

theorem treeGetFatAABB_of_mem {t : b2DynamicTree} {en : TreeEntry}
    (hnd : (t.map TreeEntry.id).Nodup) (he : en ∈ t) :
    treeGetFatAABB t en.id = some en.fatAABB := by
  rw [treeGetFatAABB, find_entry_of_nodup hnd he, Option.map_some']

theorem treeGetUserData_of_mem {t : b2DynamicTree} {en : TreeEntry}
    (hnd : (t.map TreeEntry.id).Nodup) (he : en ∈ t) :
    treeGetUserData t en.id = some en.userData := by
  rw [treeGetUserData, find_entry_of_nodup hnd he, Option.map_some']

theorem mem_treeQuery {t : b2DynamicTree} {aabb : b2AABB} {proxyId : Int} :
    proxyId ∈ treeQuery t aabb ↔
      ∃ en ∈ t, en.id = proxyId ∧ b2TestOverlap en.fatAABB aabb = true := by
  simp only [treeQuery, List.mem_map, List.mem_filter]
  constructor
  · rintro ⟨en, ⟨hmem, hov⟩, rfl⟩
    exact ⟨en, hmem, rfl, hov⟩
  · rintro ⟨en, hmem, rfl, hov⟩
    exact ⟨en, ⟨hmem, hov⟩, rfl⟩

theorem mem_queryCallbackPairs {queryProxyId : Int} {visited : List Int}
    {p : b2Pair} :
    p ∈ queryCallbackPairs queryProxyId visited ↔
      ∃ proxyId ∈ visited, proxyId ≠ queryProxyId ∧
        p = ⟨min proxyId queryProxyId, max proxyId queryProxyId⟩ := by
  simp only [queryCallbackPairs, List.mem_filterMap]
  constructor
  · rintro ⟨pid, hmem, hf⟩
    by_cases h : pid = queryProxyId
    · simp [h] at hf
    · rw [if_neg h] at hf
      exact ⟨pid, hmem, h, (Option.some_inj.1 hf).symm⟩
  · rintro ⟨pid, hmem, hne, rfl⟩
    exact ⟨pid, hmem, by rw [if_neg hne]⟩

/-- The shape of every raw candidate pair: it canonically combines a
non-sentinel handle `q` read from the move buffer with a distinct handle
`pid` stored in the tree, and its first component is strictly below its
second. -/
theorem collectPairs_shape {tree : b2DynamicTree} {moveBuffer : List Int}
    {moveBegin moveEnd : Nat} {p : b2Pair}
    (hp : p ∈ collectPairs tree moveBuffer moveBegin moveEnd) :
    ∃ q pid : Int, q ∈ moveBuffer ∧ q ≠ e_nullProxy ∧
      (∃ en ∈ tree, en.id = pid) ∧ pid ≠ q ∧
      ((p.proxyIdA = pid ∧ p.proxyIdB = q) ∨ (p.proxyIdA = q ∧ p.proxyIdB = pid)) ∧
      p.proxyIdA < p.proxyIdB := by
  simp only [collectPairs, List.mem_flatMap] at hp
  obtain ⟨i, _hi, hpi⟩ := hp
  set q := moveBuffer.getD i e_nullProxy with hq
  by_cases hnull : q = e_nullProxy
  · rw [if_pos hnull] at hpi
    cases hpi
  · rw [if_neg hnull] at hpi
    rcases hfat : treeGetFatAABB tree q with _ | fat
    · rw [hfat] at hpi
      cases hpi
    · rw [hfat] at hpi
      obtain ⟨pid, hvis, hpidne, rfl⟩ := mem_queryCallbackPairs.1 hpi
      obtain ⟨en, hen, rfl, _⟩ := mem_treeQuery.1 hvis
      have hqmem : q ∈ moveBuffer := by
        have hlen : i < moveBuffer.length := by
          by_contra hge
          apply hnull
          rw [hq, List.getD_eq_getElem?_getD, List.getElem?_eq_none (by omega),
            Option.getD_none]
        rw [hq, List.getD_eq_getElem?_getD, List.getElem?_eq_getElem hlen,
          Option.getD_some]
        exact List.getElem_mem hlen
      refine ⟨q, en.id, hqmem, hnull, ⟨en, hen, rfl⟩, hpidne, ?_, ?_⟩
      · rcases le_total en.id q with hle | hle
        · exact Or.inl ⟨min_eq_left hle, max_eq_right hle⟩
        · exact Or.inr ⟨min_eq_right hle, max_eq_left hle⟩
      · exact min_lt_max.2 hpidne

/-- Introduction form for the query loop over the full range: a
non-sentinel buffered handle with a valid fat AABB contributes the
canonical pair for every distinct handle its query visits. -/
theorem canonical_mem_collectPairs {tree : b2DynamicTree}
    {moveBuffer : List Int} {q pid : Int} {fat : b2AABB}
    (hqmem : q ∈ moveBuffer) (hqnull : q ≠ e_nullProxy)
    (hfat : treeGetFatAABB tree q = some fat)
    (hvis : pid ∈ treeQuery tree fat) (hne : pid ≠ q) :
    (⟨min pid q, max pid q⟩ : b2Pair) ∈
      collectPairs tree moveBuffer 0 moveBuffer.length := by
  obtain ⟨i, hlen, hget⟩ := List.mem_iff_getElem.1 hqmem
  simp only [collectPairs, List.mem_flatMap]
  refine ⟨i, ?_, ?_⟩
  · rw [List.mem_range']
    exact ⟨i, by omega, by omega⟩
  · have hgd : moveBuffer.getD i e_nullProxy = q := by
      rw [List.getD_eq_getElem?_getD, List.getElem?_eq_getElem hlen,
        Option.getD_some, hget]
    rw [hgd, if_neg hqnull, hfat]
    exact mem_queryCallbackPairs.2 ⟨pid, hvis, hne, rfl⟩

/-! ### Report-loop lemmas -/

/-- The duplicate-run predicate of the inner loop. -/
theorem dropWhile_head_not {pred : b2Pair → Bool} {l s : List b2Pair} {q : b2Pair}
    (h : l.dropWhile pred = q :: s) : pred q = false := by
  induction l with
  | nil => cases h
  | cons hd tl ih =>
    rw [List.dropWhile_cons] at h
    by_cases hp : pred hd
    · rw [if_pos (by simp [hp])] at h
      exact ih h
    · rw [if_neg (by simp [hp])] at h
      cases h
      simpa using hp

/-- Every report's user data is the tree's user data of its pair. -/
theorem emitAux_userData {tree : b2DynamicTree} :
    ∀ (fuel : Nat) (l : List b2Pair), ∀ r ∈ emitAux tree fuel l,
      r.userDataA = treeGetUserData tree r.pair.proxyIdA ∧
        r.userDataB = treeGetUserData tree r.pair.proxyIdB := by
  intro fuel
  induction fuel with
  | zero =>
    intro l r hr
    rcases l with _ | ⟨p, rest⟩ <;> cases hr
  | succ fuel ih =>
    intro l r hr
    rcases l with _ | ⟨p, rest⟩
    · cases hr
    · rcases List.mem_cons.1 hr with rfl | htail
      · exact ⟨rfl, rfl⟩
      · exact ih _ r htail

/-- The reported pairs are exactly the buffer's pairs (each duplicate run
is collapsed onto its primary, which is reported). -/
theorem emitAux_mem_pair {tree : b2DynamicTree} :
    ∀ (fuel : Nat) (l : List b2Pair), l.length ≤ fuel →
      ∀ p : b2Pair, p ∈ (emitAux tree fuel l).map Report.pair ↔ p ∈ l := by
  intro fuel
  induction fuel with
  | zero =>
    intro l hlen p
    rcases l with _ | ⟨hd, tl⟩
    · simp [emitAux]
    · simp at hlen
  | succ fuel ih =>
    intro l hlen p
    rcases l with _ | ⟨hd, tl⟩
    · simp [emitAux]
    · have hdrop :
          (tl.dropWhile
              (fun q => q.proxyIdA == hd.proxyIdA && q.proxyIdB == hd.proxyIdB)).length
            ≤ fuel := by
        have := List.Sublist.length_le
          (List.dropWhile_sublist
            (fun q => q.proxyIdA == hd.proxyIdA && q.proxyIdB == hd.proxyIdB)
            (l := tl))
        simp at hlen
        omega
      constructor
      · intro hp
        simp only [emitAux, List.map_cons, List.mem_cons] at hp
        rcases hp with rfl | hp
        · exact List.mem_cons_self _ _
        · have := (ih _ hdrop p).1 hp
          exact List.mem_cons_of_mem _
            (List.Sublist.subset (List.dropWhile_sublist _) this)
      · intro hp
        simp only [emitAux, List.map_cons, List.mem_cons]
        rcases List.mem_cons.1 hp with rfl | htl
        · exact Or.inl rfl
        · rcases List.mem_append.1
              ((List.takeWhile_append_dropWhile
                  (p := fun q : b2Pair => q.proxyIdA == hd.proxyIdA && q.proxyIdB == hd.proxyIdB)
                  (l := tl)) ▸ htl) with htake | hdropmem
          · left
            have := List.mem_takeWhile_imp htake
            simp only [Bool.and_eq_true, beq_iff_eq] at this
            exact b2Pair.ext this.1 this.2
          · right
            exact (ih _ hdrop p).2 hdropmem

/-- On a buffer sorted by the comparator, the reports come out strictly
increasing: each primary pair sorts strictly before the next. -/
theorem emitAux_chain' {tree : b2DynamicTree} :
    ∀ (fuel : Nat) (l : List b2Pair), l.length ≤ fuel → l.Sorted pairLe →
      List.Chain' reportLt (emitAux tree fuel l) := by
  intro fuel
  induction fuel with
  | zero =>
    intro l hlen _
    rcases l with _ | ⟨hd, tl⟩
    · exact List.chain'_nil
    · simp at hlen
  | succ fuel ih =>
    intro l hlen hsort
    rcases l with _ | ⟨hd, tl⟩
    · exact List.chain'_nil
    · rw [List.sorted_cons] at hsort
      have hsub := List.dropWhile_sublist
        (fun q => q.proxyIdA == hd.proxyIdA && q.proxyIdB == hd.proxyIdB) (l := tl)
      have hdroplen : (tl.dropWhile
          (fun q => q.proxyIdA == hd.proxyIdA && q.proxyIdB == hd.proxyIdB)).length
            ≤ fuel := by
        have := List.Sublist.length_le hsub
        simp at hlen
        omega
      have hdropsort : (tl.dropWhile
          (fun q => q.proxyIdA == hd.proxyIdA && q.proxyIdB == hd.proxyIdB)).Sorted
            pairLe :=
        List.Pairwise.sublist hsub hsort.2
      rw [emitAux, List.chain'_cons']
      refine ⟨?_, ih _ hdroplen hdropsort⟩
      intro y hy
      rcases hdrop : tl.dropWhile
          (fun q => q.proxyIdA == hd.proxyIdA && q.proxyIdB == hd.proxyIdB)
        with _ | ⟨q0, s⟩
      · rw [hdrop] at hy
        rcases fuel with _ | fuel <;> cases hy
      · rw [hdrop] at hy
        have hyq0 : y.pair = q0 := by
          rcases fuel with _ | fuel
          · simp [emitAux] at hy
          · simp only [emitAux, List.head?_cons, Option.mem_def,
              Option.some_inj] at hy
            rw [← hy]
        have hq0mem : q0 ∈ tl :=
          List.Sublist.subset (hdrop ▸ hsub) (List.mem_cons_self _ _)
        have hle : pairLe hd q0 := hsort.1 q0 hq0mem
        have hnot : ¬(q0.proxyIdA = hd.proxyIdA ∧ q0.proxyIdB = hd.proxyIdB) := by
          have := dropWhile_head_not hdrop
          simp only [Bool.and_eq_false_iff, beq_eq_false_iff_ne, ne_eq] at this
          tauto
        rw [reportLt, hyq0]
        exact pairLe_of_ne_of_le hle hnot

/-- The reported pair sequence of a sorted buffer has no repeats. -/
theorem emitAux_pairs_nodup {tree : b2DynamicTree} {l : List b2Pair}
    (hsort : l.Sorted pairLe) :
    ((emitAux tree l.length l).map Report.pair).Nodup := by
  have hchain := @emitAux_chain' tree l.length l le_rfl hsort
  have hpw : (emitAux tree l.length l).Pairwise reportLt :=
    List.chain'_iff_pairwise.1 hchain
  exact List.Pairwise.map Report.pair
    (fun r s hrs => by
      intro heq
      rw [reportLt, heq] at hrs
      exact pairLt_irrefl s.pair hrs)
    hpw

/-! ### UpdatePairs helper lemmas -/

theorem updatePairs_fst_eq (bp : b2BroadPhase) (moveBegin moveEnd : Nat) :
    (UpdatePairs bp moveBegin moveEnd).1 =
      emitPairs bp.m_tree
        (List.insertionSort pairLe
          (collectPairs bp.m_tree bp.m_moveBuffer moveBegin moveEnd)) := rfl

theorem mem_updatePairs_pair_iff (bp : b2BroadPhase) (moveBegin moveEnd : Nat)
    (p : b2Pair) :
    p ∈ (UpdatePairs bp moveBegin moveEnd).1.map Report.pair ↔
      p ∈ collectPairs bp.m_tree bp.m_moveBuffer moveBegin moveEnd := by
  rw [updatePairs_fst_eq, emitPairs, emitAux_mem_pair _ _ le_rfl p]
  simp

theorem updatePairs_report_shape {bp : b2BroadPhase} {moveBegin moveEnd : Nat}
    {r : Report} (hr : r ∈ (UpdatePairs bp moveBegin moveEnd).1) :
    ∃ q pid : Int, q ∈ bp.m_moveBuffer ∧ q ≠ e_nullProxy ∧
      (∃ en ∈ bp.m_tree, en.id = pid) ∧ pid ≠ q ∧
      ((r.pair.proxyIdA = pid ∧ r.pair.proxyIdB = q) ∨
        (r.pair.proxyIdA = q ∧ r.pair.proxyIdB = pid)) ∧
      r.pair.proxyIdA < r.pair.proxyIdB := by
  have hmem : r.pair ∈ (UpdatePairs bp moveBegin moveEnd).1.map Report.pair :=
    List.mem_map_of_mem Report.pair hr
  exact collectPairs_shape ((mem_updatePairs_pair_iff bp moveBegin moveEnd r.pair).1 hmem)

/-! ### The claims -/

/-- C10: `b2PairLessThan` is exactly the strict lexicographic order on
`(proxyIdA, proxyIdB)`, and it is irreflexive, transitive and total on
distinct pairs — the strict-weak-ordering property the sort-then-collapse
deduplication relies on. -/
theorem b2PairLessThan_strict_lex :
    (∀ p q : b2Pair, b2PairLessThan p q = true ↔
        (p.proxyIdA < q.proxyIdA ∨
          (p.proxyIdA = q.proxyIdA ∧ p.proxyIdB < q.proxyIdB))) ∧
    (∀ p : b2Pair, b2PairLessThan p p = false) ∧
    (∀ p q r : b2Pair, b2PairLessThan p q = true → b2PairLessThan q r = true →
        b2PairLessThan p r = true) ∧
    (∀ p q : b2Pair, p ≠ q →
        b2PairLessThan p q = true ∨ b2PairLessThan q p = true) := by
  refine ⟨b2PairLessThan_iff, fun p => ?_, fun p q r h1 h2 => ?_, fun p q hne => ?_⟩
  · rw [b2PairLessThan_eq_false_iff]
    omega
  · rw [b2PairLessThan_iff] at h1 h2 ⊢
    omega
  · have hfields : p.proxyIdA ≠ q.proxyIdA ∨ p.proxyIdB ≠ q.proxyIdB := by
      by_contra hcon
      push_neg at hcon
      exact hne (b2Pair.ext hcon.1 hcon.2)
    rw [b2PairLessThan_iff, b2PairLessThan_iff]
    omega

/-- C2: within one `UpdatePairs` invocation the reported sequence is
strictly increasing in the lexicographic pair order (so consecutive
duplicates are collapsed and nothing is reported twice), the reported
pair values are exactly the raw buffer's values, and each report carries
the tree's user data of its two proxies. -/
theorem updatePairs_reports_sorted_dedup (bp : b2BroadPhase)
    (moveBegin moveEnd : Nat) :
    List.Chain' reportLt (UpdatePairs bp moveBegin moveEnd).1 ∧
    (∀ p : b2Pair,
        p ∈ (UpdatePairs bp moveBegin moveEnd).1.map Report.pair ↔
          p ∈ collectPairs bp.m_tree bp.m_moveBuffer moveBegin moveEnd) ∧
    (∀ r ∈ (UpdatePairs bp moveBegin moveEnd).1,
        r.userDataA = treeGetUserData bp.m_tree r.pair.proxyIdA ∧
        r.userDataB = treeGetUserData bp.m_tree r.pair.proxyIdB) := by
  refine ⟨?_, mem_updatePairs_pair_iff bp moveBegin moveEnd, ?_⟩
  · rw [updatePairs_fst_eq, emitPairs]
    exact emitAux_chain' _ _ le_rfl (List.sorted_insertionSort pairLe _)
  · intro r hr
    rw [updatePairs_fst_eq, emitPairs] at hr
    exact emitAux_userData _ _ r hr

/-- C2 witness: the sorted-deduplicated report of the two-proxy scenario,
at the concrete pair (0, 1). -/
theorem updatePairs_reports_sorted_dedup_witness :
    (⟨0, 1⟩ : b2Pair) ∈ (UpdatePairs exBP 0 2).1.map Report.pair ↔
      (⟨0, 1⟩ : b2Pair) ∈ collectPairs exBP.m_tree exBP.m_moveBuffer 0 2 :=
  (updatePairs_reports_sorted_dedup exBP 0 2).2.1 ⟨0, 1⟩

/-- C3: no call to `AddPair` passes the same underlying proxy as both
arguments: every report's pair has two distinct proxy handles. -/
theorem updatePairs_no_self_pair (bp : b2BroadPhase) (moveBegin moveEnd : Nat)
    (r : Report) (hr : r ∈ (UpdatePairs bp moveBegin moveEnd).1) :
    r.pair.proxyIdA ≠ r.pair.proxyIdB := by
  obtain ⟨q, pid, _, _, _, _, _, hlt⟩ := updatePairs_report_shape hr
  omega

/-- C3 witness: the report of the two-proxy scenario pairs proxy 0 with
proxy 1, not a proxy with itself. -/
theorem updatePairs_no_self_pair_witness :
    reportAB.pair.proxyIdA ≠ reportAB.pair.proxyIdB :=
  updatePairs_no_self_pair exBP 0 2 reportAB (by decide)

/-- C4: `UpdatePairs` clears the shared move buffer exactly when the full
range was processed (`moveBegin = 0` and `moveEnd` equals the buffer
count) and leaves it untouched on every partial range; the explicit
`ResetMoveBuffer` operation clears it. -/
theorem updatePairs_clears_moveBuffer_iff_full_range (bp : b2BroadPhase)
    (moveBegin moveEnd : Nat) :
    ((UpdatePairs bp moveBegin moveEnd).2.m_moveBuffer =
      if moveBegin = 0 ∧ moveEnd = bp.m_moveBuffer.length then []
      else bp.m_moveBuffer) ∧
    (ResetMoveBuffer bp).m_moveBuffer = [] := by
  refine ⟨?_, rfl⟩
  by_cases h : moveBegin = 0 ∧ moveEnd = bp.m_moveBuffer.length
  · simp only [UpdatePairs, if_pos h]
  · simp only [UpdatePairs, if_neg h]

/-- C5: destruction overwrites the destroyed handle's move-buffer entries
with the null sentinel (no shifting), and a subsequent `UpdatePairs` (any
range) reports no pair involving the destroyed proxy. -/
theorem destroyProxy_then_updatePairs_reports_no_destroyed (bp : b2BroadPhase)
    (X : Int) (moveBegin moveEnd : Nat) :
    ((DestroyProxy bp X).m_moveBuffer =
      bp.m_moveBuffer.map (fun v => if v = X then e_nullProxy else v)) ∧
    ∀ r ∈ (UpdatePairs (DestroyProxy bp X) moveBegin moveEnd).1,
      r.pair.proxyIdA ≠ X ∧ r.pair.proxyIdB ≠ X := by
  refine ⟨rfl, fun r hr => ?_⟩
  obtain ⟨q, pid, hq, hqnull, ⟨en, hen, hid⟩, _, hcase, _⟩ :=
    updatePairs_report_shape hr
  have hqX : q ≠ X := by
    rw [show (DestroyProxy bp X).m_moveBuffer =
          bp.m_moveBuffer.map (fun v => if v = X then e_nullProxy else v)
        from rfl, List.mem_map] at hq
    obtain ⟨v, _, hv⟩ := hq
    by_cases hvX : v = X
    · rw [if_pos hvX] at hv
      exact absurd hv.symm hqnull
    · rw [if_neg hvX] at hv
      exact hv ▸ hvX
  have hpidX : pid ≠ X := by
    have hen2 := List.mem_filter.1 hen
    have : (en.id != X) = true := hen2.2
    rw [bne_iff_ne] at this
    exact hid ▸ this
  rcases hcase with ⟨hA, hB⟩ | ⟨hA, hB⟩
  · exact ⟨by rw [hA]; exact hpidX, by rw [hB]; exact hqX⟩
  · exact ⟨by rw [hA]; exact hqX, by rw [hB]; exact hpidX⟩

/-- C5 witness: destroying proxy 2 of the three-proxy scenario and
running a full-range `UpdatePairs` still reports the pair (0, 1), which
involves neither side equal to 2. -/
theorem destroyProxy_then_updatePairs_reports_no_destroyed_witness :
    reportAB.pair.proxyIdA ≠ 2 ∧ reportAB.pair.proxyIdB ≠ 2 :=
  (destroyProxy_then_updatePairs_reports_no_destroyed exBP3 2 0 3).2
    reportAB (by decide)

/-- C6: a repeated `UpdatePairs` reports pairs only for proxies still
present in the (unreset) move buffer — every report's pair has a side
read from that buffer — and after `ResetMoveBuffer` a full-range call
over the now-empty buffer reports nothing. -/
theorem updatePairs_idempotent_after_reset (bp : b2BroadPhase)
    (b1 e1 b2 e2 : Nat) :
    (∀ r ∈ (UpdatePairs (UpdatePairs bp b1 e1).2 b2 e2).1,
        r.pair.proxyIdA ∈ (UpdatePairs bp b1 e1).2.m_moveBuffer ∨
        r.pair.proxyIdB ∈ (UpdatePairs bp b1 e1).2.m_moveBuffer) ∧
    (UpdatePairs (ResetMoveBuffer bp) 0
        (ResetMoveBuffer bp).m_moveBuffer.length).1 = [] := by
  refine ⟨fun r hr => ?_, rfl⟩
  obtain ⟨q, pid, hq, _, _, _, hcase, _⟩ := updatePairs_report_shape hr
  rcases hcase with ⟨hA, hB⟩ | ⟨hA, hB⟩
  · exact Or.inr (by rw [hB]; exact hq)
  · exact Or.inl (by rw [hA]; exact hq)

/-- C6 witness: a first no-op call leaves the buffer; the second,
full-range call still reports (0, 1), whose sides are buffered. -/
theorem updatePairs_idempotent_after_reset_witness :
    reportAB.pair.proxyIdA ∈ (UpdatePairs exBP 0 0).2.m_moveBuffer ∨
    reportAB.pair.proxyIdB ∈ (UpdatePairs exBP 0 0).2.m_moveBuffer :=
  (updatePairs_idempotent_after_reset exBP 0 0 0 2).1 reportAB (by decide)

/-- C8: every `MoveProxy` call appends the proxy to the move buffer,
whether or not the spatial index restructured (the containment
optimization is invisible to the buffering). -/
theorem moveProxy_buffers_unconditionally (bp : b2BroadPhase) (proxyId : Int)
    (aabb : b2AABB) (dx dy : Int) :
    (MoveProxy bp proxyId aabb dx dy).m_moveBuffer =
      bp.m_moveBuffer ++ [proxyId] := rfl

/-- One lifecycle operation moves the live count by exactly one. -/
theorem applyOp_proxyCount (bp : b2BroadPhase) (op : ProxyOp) :
    GetProxyCount (applyOp bp op) =
      GetProxyCount bp + (match op with | .create _ _ => 1 | .destroy _ => -1) := by
  rcases op with ⟨aabb, userData⟩ | proxyId <;> rfl

/-- The live count after a sequence is the start count plus creates minus
destroys. -/
theorem applyOps_proxyCount (ops : List ProxyOp) : ∀ bp : b2BroadPhase,
    GetProxyCount (applyOps bp ops) =
      GetProxyCount bp + countCreates ops - countDestroys ops := by
  induction ops with
  | nil =>
    intro bp
    simp [applyOps, countCreates, countDestroys]
  | cons op ops ih =>
    intro bp
    rw [applyOps, ih, applyOp_proxyCount]
    rcases op with ⟨aabb, userData⟩ | proxyId <;>
      · simp [countCreates, countDestroys, List.countP_cons]
        omega

/-- C7: over every valid lifecycle sequence (each destroy applied to a
live proxy) starting from an empty broad phase, `GetProxyCount` returns
the number of creates minus the number of destroys. -/
theorem getProxyCount_eq_creates_sub_destroys (ops : List ProxyOp)
    (_hv : validOps initialBroadPhase ops = true) :
    GetProxyCount (applyOps initialBroadPhase ops) =
      countCreates ops - countDestroys ops := by
  have h := applyOps_proxyCount ops initialBroadPhase
  simpa [GetProxyCount, initialBroadPhase] using h

/-- C7 witness: two creates and one valid destroy leave one live proxy. -/
theorem getProxyCount_eq_creates_sub_destroys_witness :
    GetProxyCount (applyOps initialBroadPhase exOps) =
      countCreates exOps - countDestroys exOps :=
  getProxyCount_eq_creates_sub_destroys exOps (by decide)

/-- C9: for two valid handles, `TestOverlap` returns true iff on each
axis the projections of the two stored fat AABBs have a non-empty
interval intersection (plain comparisons, no tolerance). -/
theorem testOverlap_iff_axes_overlap (bp : b2BroadPhase)
    (proxyIdA proxyIdB : Int) (a b : b2AABB)
    (hA : treeGetFatAABB bp.m_tree proxyIdA = some a)
    (hB : treeGetFatAABB bp.m_tree proxyIdB = some b)
    (hva : a.lowerX ≤ a.upperX ∧ a.lowerY ≤ a.upperY)
    (hvb : b.lowerX ≤ b.upperX ∧ b.lowerY ≤ b.upperY) :
    TestOverlap bp proxyIdA proxyIdB = true ↔
      ((∃ x : Int, a.lowerX ≤ x ∧ x ≤ a.upperX ∧ b.lowerX ≤ x ∧ x ≤ b.upperX) ∧
        (∃ y : Int, a.lowerY ≤ y ∧ y ≤ a.upperY ∧ b.lowerY ≤ y ∧ y ≤ b.upperY)) := by
  rw [show TestOverlap bp proxyIdA proxyIdB = b2TestOverlap a b by
    simp [TestOverlap, hA, hB]]
  rw [b2TestOverlap_eq_true_iff]
  constructor
  · rintro ⟨h1, h2, h3, h4⟩
    exact ⟨⟨max a.lowerX b.lowerX, le_max_left _ _, max_le hva.1 h2,
        le_max_right _ _, max_le h1 hvb.1⟩,
      ⟨max a.lowerY b.lowerY, le_max_left _ _, max_le hva.2 h4,
        le_max_right _ _, max_le h3 hvb.2⟩⟩
  · rintro ⟨⟨x, hx1, hx2, hx3, hx4⟩, ⟨y, hy1, hy2, hy3, hy4⟩⟩
    omega

/-- C9 witness: proxies 0 and 1 of the example overlap, and the interval
characterization holds at their stored fat AABBs. -/
theorem testOverlap_iff_axes_overlap_witness :
    TestOverlap exBP 0 1 = true ↔
      ((∃ x : Int, aabbA.lowerX ≤ x ∧ x ≤ aabbA.upperX ∧
          aabbB.lowerX ≤ x ∧ x ≤ aabbB.upperX) ∧
        (∃ y : Int, aabbA.lowerY ≤ y ∧ y ≤ aabbA.upperY ∧
          aabbB.lowerY ≤ y ∧ y ≤ aabbB.upperY)) :=
  testOverlap_iff_axes_overlap exBP 0 1 aabbA aabbB (by decide) (by decide)
    (by decide) (by decide)

/-- The reported pair values of one `UpdatePairs` call have no repeats. -/
theorem updatePairs_pairs_nodup (bp : b2BroadPhase) (moveBegin moveEnd : Nat) :
    ((UpdatePairs bp moveBegin moveEnd).1.map Report.pair).Nodup := by
  rw [updatePairs_fst_eq, emitPairs]
  exact emitAux_pairs_nodup (List.sorted_insertionSort pairLe _)

/-- C1: two live proxies with distinct handles whose fat AABBs overlap,
both buffered as moved, are reported exactly once as an unordered pair by
a full-range single-threaded `UpdatePairs`: the callback sees the pair
once, never both (A,B) and (B,A). -/
theorem updatePairs_reports_overlapping_pair_once (bp : b2BroadPhase)
    (eA eB : TreeEntry)
    (hnd : (bp.m_tree.map TreeEntry.id).Nodup)
    (hA : eA ∈ bp.m_tree) (hB : eB ∈ bp.m_tree) (hne : eA.id ≠ eB.id)
    (hov : b2TestOverlap eA.fatAABB eB.fatAABB = true)
    (hAmv : eA.id ∈ bp.m_moveBuffer) (_hBmv : eB.id ∈ bp.m_moveBuffer)
    (hAnull : eA.id ≠ e_nullProxy) :
    (UpdatePairs bp 0 bp.m_moveBuffer.length).1.countP
        (fun r => r.pair == (⟨eA.id, eB.id⟩ : b2Pair) ||
          r.pair == (⟨eB.id, eA.id⟩ : b2Pair)) = 1 := by
  have hfat : treeGetFatAABB bp.m_tree eA.id = some eA.fatAABB :=
    treeGetFatAABB_of_mem hnd hA
  have hov' : b2TestOverlap eB.fatAABB eA.fatAABB = true := by
    rw [b2TestOverlap_comm]
    exact hov
  have hvis : eB.id ∈ treeQuery bp.m_tree eA.fatAABB :=
    mem_treeQuery.2 ⟨eB, hB, rfl, hov'⟩
  have hraw : (⟨min eB.id eA.id, max eB.id eA.id⟩ : b2Pair) ∈
      collectPairs bp.m_tree bp.m_moveBuffer 0 bp.m_moveBuffer.length :=
    canonical_mem_collectPairs hAmv hAnull hfat hvis (fun h => hne h.symm)
  have hmem : (⟨min eB.id eA.id, max eB.id eA.id⟩ : b2Pair) ∈
      (UpdatePairs bp 0 bp.m_moveBuffer.length).1.map Report.pair :=
    (mem_updatePairs_pair_iff bp 0 bp.m_moveBuffer.length _).2 hraw
  have hcount : ((UpdatePairs bp 0 bp.m_moveBuffer.length).1.map Report.pair).count
      (⟨min eB.id eA.id, max eB.id eA.id⟩ : b2Pair) = 1 :=
    List.count_eq_one_of_mem (updatePairs_pairs_nodup bp 0 bp.m_moveBuffer.length) hmem
  have hcongr : ∀ r ∈ (UpdatePairs bp 0 bp.m_moveBuffer.length).1,
      ((r.pair == (⟨eA.id, eB.id⟩ : b2Pair) ||
          r.pair == (⟨eB.id, eA.id⟩ : b2Pair)) = true) ↔
        ((r.pair == (⟨min eB.id eA.id, max eB.id eA.id⟩ : b2Pair)) = true) := by
    intro r hr
    obtain ⟨q, pid, _, _, _, _, _, hlt⟩ := updatePairs_report_shape hr
    simp only [Bool.or_eq_true, beq_iff_eq]
    rcases lt_or_gt_of_ne hne with h | h
    · have hmin : min eB.id eA.id = eA.id := min_eq_right h.le
      have hmax : max eB.id eA.id = eB.id := max_eq_left h.le
      rw [hmin, hmax]
      constructor
      · rintro (heq | heq)
        · exact heq
        · rw [heq] at hlt
          simp only at hlt
          omega
      · exact Or.inl
    · have hmin : min eB.id eA.id = eB.id := min_eq_left h.le
      have hmax : max eB.id eA.id = eA.id := max_eq_right h.le
      rw [hmin, hmax]
      constructor
      · rintro (heq | heq)
        · rw [heq] at hlt
          simp only at hlt
          omega
        · exact heq
      · exact Or.inr
  rw [List.countP_congr hcongr]
  rw [← hcount, List.count_eq_countP, List.countP_map]
  rfl

/-- C1 witness: in the two-proxy scenario the unordered pair {0, 1} is
reported exactly once by the full-range call. -/
theorem updatePairs_reports_overlapping_pair_once_witness :
    (UpdatePairs exBP 0 exBP.m_moveBuffer.length).1.countP
        (fun r => r.pair == (⟨entryA.id, entryB.id⟩ : b2Pair) ||
          r.pair == (⟨entryB.id, entryA.id⟩ : b2Pair)) = 1 :=
  updatePairs_reports_overlapping_pair_once exBP entryA entryB (by decide)
    (by decide) (by decide) (by decide) (by decide) (by decide) (by decide)
    (by decide)

end Box2D
